import Mathlib

/-!
Shallow embedding of the calculator core of `next-calculator`
(the reducer and its helpers in the Calculator component).

JavaScript numbers are modelled by `JSNum`: an exact rational for the
finite case plus the two infinities and NaN, with IEEE-style propagation
of the non-finite values through the arithmetic operators.  The finite
case is an explicit unnormalized fraction `Frac` (integer numerator over
natural denominator) so that every operation is plain integer arithmetic
and evaluates inside the kernel; `Frac.toRat` maps it to ℚ for the
algebraic statements.  Finite arithmetic is exact (the idealisation of
binary64 that the spec itself adopts when it speaks of eliminating
floating-point noise); every claim settled below depends only on control
flow, state structure, or values where binary64 and exact arithmetic
agree.
-/

namespace Calculator

/-- An exact rational as an unnormalized fraction: `num / den`.  All
fractions built by the embedding have `0 < den`. -/
structure Frac where
  num : ℤ
  den : ℕ
deriving DecidableEq, Repr

namespace Frac

/-- The rational value of a fraction. -/
def toRat (q : Frac) : ℚ := (q.num : ℚ) / (q.den : ℚ)

def zero : Frac := ⟨0, 1⟩

def ofInt (n : ℤ) : Frac := ⟨n, 1⟩

def add (a b : Frac) : Frac :=
  ⟨a.num * (b.den : ℤ) + b.num * (a.den : ℤ), a.den * b.den⟩

def sub (a b : Frac) : Frac :=
  ⟨a.num * (b.den : ℤ) - b.num * (a.den : ℤ), a.den * b.den⟩

def mul (a b : Frac) : Frac :=
  ⟨a.num * b.num, a.den * b.den⟩

/-- Exact division; only invoked with `b.num ≠ 0`. -/
def div (a b : Frac) : Frac :=
  if b.num < 0 then ⟨-(a.num * (b.den : ℤ)), a.den * b.num.natAbs⟩
  else ⟨a.num * (b.den : ℤ), a.den * b.num.natAbs⟩

end Frac

/-- The four binary operators, `'+' | '-' | '×' | '÷'` in the source. -/
inductive Operator where
  | add
  | sub
  | mul
  | div
deriving DecidableEq, Repr

/-- The character the source stores for each operator (used when the
reducer builds a history expression via template-string interpolation). -/
def opStr : Operator → String
  | .add => "+"
  | .sub => "-"
  | .mul => "×"
  | .div => "÷"

/-- Model of a JavaScript `number`: an exact rational, `Infinity`,
`-Infinity`, or `NaN`. -/
inductive JSNum where
  | fin (q : Frac)
  | posInf
  | negInf
  | nan
deriving DecidableEq, Repr

namespace JSNum

/-- The JavaScript test `n === 0` (value equality with zero). -/
def isZero : JSNum → Bool
  | fin q => q.num = 0
  | _ => false

/-- The test `Number.isFinite`. -/
def isFinite : JSNum → Bool
  | fin _ => true
  | _ => false

/-- JavaScript `+` on numbers. -/
def add : JSNum → JSNum → JSNum
  | nan, _ => nan
  | _, nan => nan
  | posInf, negInf => nan
  | negInf, posInf => nan
  | posInf, _ => posInf
  | _, posInf => posInf
  | negInf, _ => negInf
  | _, negInf => negInf
  | fin a, fin b => fin (a.add b)

/-- JavaScript `-` on numbers. -/
def sub : JSNum → JSNum → JSNum
  | nan, _ => nan
  | _, nan => nan
  | posInf, posInf => nan
  | negInf, negInf => nan
  | posInf, _ => posInf
  | _, negInf => posInf
  | negInf, _ => negInf
  | _, posInf => negInf
  | fin a, fin b => fin (a.sub b)

/-- JavaScript `*` on numbers (`Infinity * 0 = NaN`). -/
def mul : JSNum → JSNum → JSNum
  | nan, _ => nan
  | _, nan => nan
  | posInf, posInf => posInf
  | posInf, negInf => negInf
  | negInf, posInf => negInf
  | negInf, negInf => posInf
  | posInf, fin b => if b.num = 0 then nan else if 0 < b.num then posInf else negInf
  | fin a, posInf => if a.num = 0 then nan else if 0 < a.num then posInf else negInf
  | negInf, fin b => if b.num = 0 then nan else if 0 < b.num then negInf else posInf
  | fin a, negInf => if a.num = 0 then nan else if 0 < a.num then negInf else posInf
  | fin a, fin b => fin (a.mul b)

/-- JavaScript `/` on numbers (`x / 0 = ±Infinity`, `0 / 0 = NaN`,
`x / Infinity = 0`, `Infinity / Infinity = NaN`). -/
def div : JSNum → JSNum → JSNum
  | nan, _ => nan
  | _, nan => nan
  | posInf, posInf => nan
  | posInf, negInf => nan
  | negInf, posInf => nan
  | negInf, negInf => nan
  | posInf, fin b => if b.num < 0 then negInf else posInf
  | negInf, fin b => if b.num < 0 then posInf else negInf
  | fin _, posInf => fin Frac.zero
  | fin _, negInf => fin Frac.zero
  | fin a, fin b =>
      if b.num = 0 then
        if a.num = 0 then nan else if 0 < a.num then posInf else negInf
      else fin (a.div b)

end JSNum

/-- The expression `n || 0` for a number `n` as in the percent handler: the falsy
numbers (`NaN`, `0`, `-0`) are replaced by the literal `0`, everything
else is kept. -/
def orZero (n : JSNum) : JSNum :=
  match n with
  | .nan => .fin Frac.zero
  | .fin q => if q.num = 0 then .fin Frac.zero else .fin q
  | x => x

/-- Characters `'0'-'9'` (the guard of the digit-accumulating loops of
`parseFloat`). -/
def isDigitChar (c : Char) : Bool :=
  '0' ≤ c && c ≤ '9'

/-- Split a character list into its longest digit prefix and the rest. -/
def takeDigits (cs : List Char) : List Char × List Char :=
  match cs with
  | [] => ([], [])
  | c :: rest =>
      if isDigitChar c then
        let p := takeDigits rest
        (c :: p.1, p.2)
      else ([], cs)

/-- Numeric value of a (digit) character list, most significant first. -/
def digitsVal (ds : List Char) : ℕ :=
  ds.foldl (fun acc c => acc * 10 + (c.toNat - 48)) 0

/-- Value of the exponent part of a float literal: optional sign then
digits; an `e` not followed by digits contributes exponent `0` (JS
`parseFloat` stops before an incomplete exponent). -/
def parseExp (cs : List Char) : ℤ :=
  let p :=
    match cs with
    | '-' :: r => (true, r)
    | '+' :: r => (false, r)
    | r => (false, r)
  let ds := (takeDigits p.2).1
  if ds = [] then 0
  else if p.1 then -(digitsVal ds : ℤ) else (digitsVal ds : ℤ)

/-- Apply a decimal exponent to a fraction. -/
def applyExp (q : Frac) (e : ℤ) : Frac :=
  if 0 ≤ e then ⟨q.num * 10 ^ e.toNat, q.den⟩ else ⟨q.num, q.den * 10 ^ (-e).toNat⟩

/-- JavaScript `parseFloat`: skip leading whitespace, read an optional
sign, then either the literal `Infinity` or the longest decimal-literal
prefix (integer digits, optional fraction, optional exponent); `NaN`
when no digits can be read at all. -/
def parseFloat (s : String) : JSNum :=
  let cs := s.data.dropWhile Char.isWhitespace
  let p :=
    match cs with
    | '-' :: r => (true, r)
    | '+' :: r => (false, r)
    | r => (false, r)
  let neg := p.1
  let cs1 := p.2
  if cs1.take 8 = "Infinity".data then
    if neg then .negInf else .posInf
  else
    let ipr := takeDigits cs1
    let ip := ipr.1
    let fpr :=
      match ipr.2 with
      | '.' :: r => takeDigits r
      | _ => ([], ipr.2)
    let fp := fpr.1
    if ip = [] ∧ fp = [] then .nan
    else
      let e : ℤ :=
        match fpr.2 with
        | 'e' :: r => parseExp r
        | 'E' :: r => parseExp r
        | _ => 0
      let mant : Frac := ⟨(digitsVal ip : ℤ) * 10 ^ fp.length + (digitsVal fp : ℤ), 10 ^ fp.length⟩
      let v := applyExp mant e
      .fin (if neg then ⟨-v.num, v.den⟩ else v)

/-- The helper `parseDisplay`: `parseFloat` with every non-finite result collapsed
to `0` (`Number.isFinite(n) ? n : 0`). -/
def parseDisplay (display : String) : Frac :=
  match parseFloat display with
  | .fin q => q
  | _ => Frac.zero

/-- The integer `⌊q * 10^12 + 1/2⌋` of 12-decimal rounding with ties
toward `+∞` — the rounding `toFixed` performs ("if there are two such
n, pick the larger"). -/
def roundTo12 (q : Frac) : ℤ :=
  Int.fdiv (2 * q.num * 10 ^ 12 + (q.den : ℤ)) (2 * (q.den : ℤ))

/-- Left-pad a numeral with zeros to `n` characters. -/
def padZeros (s : String) (n : ℕ) : String :=
  String.mk (List.replicate (n - s.length) '0') ++ s

/-- Drop trailing `'0'` characters. -/
def stripTrailingZeros (s : String) : String :=
  String.mk (s.data.reverse.dropWhile (fun c => c = '0')).reverse

/-- Plain-decimal rendering of `m / 10^12` (the `trimmed.toString()`
branch of `formatResult`): integer part, then the fractional digits with
trailing zeros stripped, no decimal point when the fraction is zero. -/
def decStr (m : ℤ) : String :=
  let a := m.natAbs
  let ip := a / 10 ^ 12
  let fp := a % 10 ^ 12
  let core :=
    toString ip ++ (if fp = 0 then "" else "." ++ stripTrailingZeros (padZeros (toString fp) 12))
  if m < 0 then "-" ++ core else core

/-- Exponential rendering of `m / 10^12` with 6 fractional mantissa
digits (the `trimmed.toExponential(6)` branch); only reached for
`m ≠ 0`. -/
def expStr (m : ℤ) : String :=
  let a := m.natAbs
  let k := (toString a).length - 1
  let p :=
    if k ≤ 6 then (a * 10 ^ (6 - k), k)
    else
      let d := 10 ^ (k - 6)
      let r := (a + d / 2) / d
      if r = 10 ^ 7 then (10 ^ 6, k + 1) else (r, k)
  let e : ℤ := (p.2 : ℤ) - 12
  let ds := toString p.1
  let mantStr := ds.take 1 ++ "." ++ ds.drop 1
  let expPart := if e < 0 then "e-" ++ toString (-e) else "e+" ++ toString e
  (if m < 0 then "-" else "") ++ mantStr ++ expPart

/-- The helper `formatResult`: non-finite → `"Error"`; otherwise round to 12
decimal places (`parseFloat(num.toFixed(12))`, i.e. the integer
`m = roundTo12 q` over `10^12`), then exponential notation when
`|trimmed| ≥ 1e12` or `0 < |trimmed| < 1e-6`, else the plain decimal
string. -/
def formatResult (n : JSNum) : String :=
  match n with
  | .fin q =>
      let m : ℤ := roundTo12 q
      if 10 ^ 24 ≤ |m| ∨ (0 < |m| ∧ |m| < 10 ^ 6) then expStr m
      else decStr m
  | _ => "Error"

/-- A history entry.  The source also stores an `id` (timestamp plus a
random suffix) and a `ts` timestamp; those are the component's only
impure, identity-carrying fields, carry no calculation content, and the
spec's design notes direct them behind an injectable provider, so the
embedding omits them. -/
structure HistoryItem where
  expression : String
  result : String
deriving DecidableEq, Repr

/-- The calculator state. -/
structure State where
  display : String
  firstOperand : Option JSNum
  operator : Option Operator
  waitingForSecond : Bool
  memory : Option JSNum
  history : List HistoryItem
deriving DecidableEq, Repr

/-- The reducer's action union. -/
inductive Action where
  | digit (d : String)
  | dot
  | clear
  | delete
  | toggleSign
  | percent
  | operator (op : Operator)
  | equals
  | memoryClear
  | memoryRecall
  | memoryAdd
  | memorySubtract
  | historyClear
  | setDisplay (v : String)
deriving DecidableEq, Repr

def initialState : State :=
  { display := "0"
    firstOperand := none
    operator := none
    waitingForSecond := false
    memory := none
    history := [] }

/-- The helper `pushHistory`: prepend the new entry and truncate to the most
recent `limit` entries (the source's default limit is 25 and no caller
overrides it). -/
def pushHistory (history : List HistoryItem) (expression result : String)
    (limit : ℕ) : List HistoryItem :=
  ({ expression := expression, result := result } :: history).take limit

/-- The history expression the compute branches build:
`` `${formatResult(state.firstOperand)} ${state.operator} ${formatResult(inputValue)} =` ``. -/
def exprOf (a : JSNum) (op : Operator) (b : JSNum) : String :=
  formatResult a ++ " " ++ opStr op ++ " " ++ formatResult b ++ " ="

/-- The helper `calculate(a, b, op)`; division tests `b === 0` and short-circuits
to `Infinity`. -/
def calculate (a b : JSNum) (op : Operator) : JSNum :=
  match op with
  | .add => a.add b
  | .sub => a.sub b
  | .mul => a.mul b
  | .div => if b.isZero then .posInf else a.div b

/-- The state reducer, case by case from the source's `switch`. -/
def reducer (state : State) (action : Action) : State :=
  match action with
  | .digit d =>
      if state.waitingForSecond then
        { state with display := if d = "0" then "0" else d, waitingForSecond := false }
      else if state.display = "0" then { state with display := d }
      else if state.display = "-0" then { state with display := "-" ++ d }
      else { state with display := state.display ++ d }
  | .dot =>
      if state.waitingForSecond then
        { state with display := "0.", waitingForSecond := false }
      else if state.display.contains '.' then state
      else { state with display := state.display ++ "." }
  | .clear =>
      { initialState with history := state.history, memory := state.memory }
  | .delete =>
      if state.waitingForSecond then state
      else
        let next := state.display.dropRight 1
        let next1 := if next = "" ∨ next = "-" ∨ next = "-0" then "0" else next
        { state with display := next1 }
  | .toggleSign =>
      if state.display = "0" then state
      else if state.display.startsWith "-" then
        { state with display := state.display.drop 1 }
      else { state with display := "-" ++ state.display }
  | .percent =>
      let current := orZero (parseFloat state.display)
      match state.firstOperand, state.operator, state.waitingForSecond with
      | some a, some _, false =>
          { state with display := formatResult ((a.mul current).div (.fin ⟨100, 1⟩)) }
      | _, _, _ =>
          { state with display := formatResult (current.div (.fin ⟨100, 1⟩)) }
  | .operator nextOp =>
      let inputValue := JSNum.fin (parseDisplay state.display)
      match state.operator, state.waitingForSecond with
      | some _, true => { state with operator := some nextOp }
      | _, _ =>
          match state.firstOperand with
          | none =>
              { state with
                  firstOperand := some inputValue
                  operator := some nextOp
                  waitingForSecond := true }
          | some a =>
              match state.operator with
              | some op =>
                  let result := calculate a inputValue op
                  let formatted := formatResult result
                  { display := formatted
                    firstOperand := some result
                    operator := some nextOp
                    waitingForSecond := true
                    memory := state.memory
                    history := pushHistory state.history (exprOf a op inputValue) formatted 25 }
              | none => state
  | .equals =>
      match state.operator, state.waitingForSecond, state.firstOperand with
      | some op, false, some a =>
          let inputValue := JSNum.fin (parseDisplay state.display)
          let result := calculate a inputValue op
          let formatted := formatResult result
          { display := formatted
            firstOperand := none
            operator := none
            waitingForSecond := false
            memory := state.memory
            history := pushHistory state.history (exprOf a op inputValue) formatted 25 }
      | _, _, _ => state
  | .memoryClear => { state with memory := none }
  | .memoryRecall =>
      match state.memory with
      | none => state
      | some m => { state with display := formatResult m, waitingForSecond := false }
  | .memoryAdd =>
      { state with
          memory := some ((state.memory.getD (.fin Frac.zero)).add (.fin (parseDisplay state.display))) }
  | .memorySubtract =>
      { state with
          memory := some ((state.memory.getD (.fin Frac.zero)).sub (.fin (parseDisplay state.display))) }
  | .historyClear => { state with history := [] }
  | .setDisplay v =>
      { state with
          display := v
          firstOperand := none
          operator := none
          waitingForSecond := false }

/-- Run a sequence of actions from a state. -/
def runActions (actions : List Action) (s : State) : State :=
  actions.foldl reducer s

/-- States reachable from the initial state by dispatching actions. -/
inductive Reachable : State → Prop where
  | init : Reachable initialState
  | step {s : State} (a : Action) : Reachable s → Reachable (reducer s a)

/-- Well-formed exponent tail of a numeric literal: optional sign then a
nonempty run of digits, consuming everything. -/
def expTail (cs : List Char) : Bool :=
  let p :=
    match cs with
    | '-' :: r => r
    | '+' :: r => r
    | r => r
  let q := takeDigits p
  !q.1.isEmpty && q.2.isEmpty

/-- Stated from the spec's words "a valid numeric literal string" (for
the display invariant claims): an optional leading minus, then digits
with at most one decimal point and at least one digit in total, and an
optional well-formed exponent part; nothing else. -/
def specNumericLiteral (s : String) : Bool :=
  let cs :=
    match s.data with
    | '-' :: r => r
    | r => r
  let ip := takeDigits cs
  let fp :=
    match ip.2 with
    | '.' :: r => takeDigits r
    | r => ([], r)
  (!ip.1.isEmpty || !fp.1.isEmpty) &&
    (match fp.2 with
     | [] => true
     | 'e' :: r => expTail r
     | 'E' :: r => expTail r
     | _ => false)

theorem reachable_runActions (actions : List Action) {s : State} (h : Reachable s) :
    Reachable (runActions actions s) := by
  induction actions generalizing s with
  | nil => exact h
  | cons a rest ih => exact ih (Reachable.step a h)

theorem Frac.toRat_add (a b : Frac) (ha : 0 < a.den) (hb : 0 < b.den) :
    (a.add b).toRat = a.toRat + b.toRat := by
  have ha' : ((a.den : ℚ)) ≠ 0 := by exact_mod_cast ha.ne'
  have hb' : ((b.den : ℚ)) ≠ 0 := by exact_mod_cast hb.ne'
  simp only [Frac.toRat, Frac.add]
  push_cast
  field_simp

theorem Frac.toRat_mul (a b : Frac) : (a.mul b).toRat = a.toRat * b.toRat := by
  simp only [Frac.toRat, Frac.mul]
  push_cast
  rw [div_mul_div_comm]

theorem Frac.toRat_div (a b : Frac) : (a.div b).toRat = a.toRat / b.toRat := by
  have hrhs : a.toRat / b.toRat = ((a.num : ℚ) * (b.den : ℚ)) / ((a.den : ℚ) * (b.num : ℚ)) := by
    simp only [Frac.toRat]
    rw [div_div_eq_mul_div, div_mul_eq_mul_div, div_div]
  rw [hrhs]
  by_cases hb : b.num < 0
  · have hn : ((b.num.natAbs : ℕ) : ℚ) = ((-b.num : ℤ) : ℚ) := by
      rw [Int.cast_natAbs, abs_of_neg hb]
    simp only [Frac.div, if_pos hb, Frac.toRat]
    push_cast
    push_cast at hn
    rw [hn, mul_neg, neg_div_neg_eq]
  · have hn : ((b.num.natAbs : ℕ) : ℚ) = ((b.num : ℤ) : ℚ) := by
      rw [Int.cast_natAbs, abs_of_nonneg (not_lt.mp hb)]
    simp only [Frac.div, if_neg hb, Frac.toRat]
    push_cast
    push_cast at hn
    rw [hn]

/-- C4: `calculate(a, b, Divide)` returns positive infinity when
`b = 0` and the exact quotient `a / b` otherwise (never an exception —
`calculate` is a total function), and the non-finite result formats to
`"Error"`, so `calculate(6, 0, Divide)` followed by `formatResult`
yields `"Error"`. -/
theorem calculate_divide_spec :
    (∀ a b : JSNum, b.isZero = true → calculate a b .div = .posInf) ∧
    (∀ a b : Frac, b.num ≠ 0 →
      calculate (.fin a) (.fin b) .div = .fin (a.div b) ∧
      (a.div b).toRat = a.toRat / b.toRat) ∧
    formatResult (calculate (.fin ⟨6, 1⟩) (.fin ⟨0, 1⟩) .div) = "Error" := by
  refine ⟨?_, ?_, by decide⟩
  · intro a b hb
    simp [calculate, hb]
  · intro a b hb
    refine ⟨?_, Frac.toRat_div a b⟩
    simp [calculate, JSNum.isZero, JSNum.div, hb]

/-- Witness for C4 at concrete inputs: division by the nonzero `2`
computes the exact quotient, and the zero test fires on `0`. -/
theorem calculate_divide_spec_witness :
    calculate (.fin ⟨1, 1⟩) (.fin ⟨0, 1⟩) .div = .posInf ∧
    calculate (.fin ⟨1, 1⟩) (.fin ⟨2, 1⟩) .div = .fin (Frac.div ⟨1, 1⟩ ⟨2, 1⟩) ∧
    (Frac.div ⟨1, 1⟩ ⟨2, 1⟩).toRat = (Frac.toRat ⟨1, 1⟩) / (Frac.toRat ⟨2, 1⟩) :=
  ⟨calculate_divide_spec.1 (.fin ⟨1, 1⟩) (.fin ⟨0, 1⟩) (by decide),
   (calculate_divide_spec.2.1 ⟨1, 1⟩ ⟨2, 1⟩ (by decide)).1,
   (calculate_divide_spec.2.1 ⟨1, 1⟩ ⟨2, 1⟩ (by decide)).2⟩

/-- C7: `Clear` yields display `"0"` with no operands, operator, or
awaiting flag, while history and memory are exactly those of the input
state; consequently `Clear` is idempotent. -/
theorem clear_resets_preserving_history_memory :
    ∀ s : State,
      reducer s .clear =
        { display := "0", firstOperand := none, operator := none,
          waitingForSecond := false, memory := s.memory, history := s.history } ∧
      reducer (reducer s .clear) .clear = reducer s .clear := by
  intro s
  exact ⟨rfl, rfl⟩

/-- C10: `Percent` changes only the display field — firstOperand,
operator, waitingForSecond, memory, and history are all unchanged — so
a pending operation survives `Percent` and a subsequent `Equals` uses
the percent result as second operand: `200, Add, 10, Percent, Equals`
computes `200 + 20 = 220`. -/
theorem percent_frame_effect :
    (∀ s : State,
      (reducer s .percent).firstOperand = s.firstOperand ∧
      (reducer s .percent).operator = s.operator ∧
      (reducer s .percent).waitingForSecond = s.waitingForSecond ∧
      (reducer s .percent).memory = s.memory ∧
      (reducer s .percent).history = s.history) ∧
    (runActions [.digit "2", .digit "0", .digit "0", .operator .add, .digit "1", .digit "0",
        .percent, .equals] initialState).display = "220" ∧
    ({ expression := "200 + 20 =", result := "220" } : HistoryItem) ∈
      (runActions [.digit "2", .digit "0", .digit "0", .operator .add, .digit "1", .digit "0",
        .percent, .equals] initialState).history := by
  refine ⟨?_, by decide, by decide⟩
  intro s
  obtain ⟨d, fo, op, w, m, h⟩ := s
  rcases fo with _ | a <;> rcases op with _ | o <;> rcases w <;>
    exact ⟨rfl, rfl, rfl, rfl, rfl⟩

/-- C1 is violated by the code: after `Equals` on a division by zero the
display is `"Error"` with `waitingForSecond = false`, so the next digit
is appended to the error text (`"Error5"`) instead of starting a fresh
number. -/
theorem digit_after_error_appends :
    (runActions [.digit "6", .operator .div, .digit "0", .equals] initialState).display
        = "Error" ∧
    (runActions [.digit "6", .operator .div, .digit "0", .equals] initialState).waitingForSecond
        = false ∧
    (reducer (runActions [.digit "6", .operator .div, .digit "0", .equals] initialState)
        (.digit "5")).display = "Error5" := by
  decide

/-- C2 is violated by the code: the state reached by
`6, ÷, 0, =, 5` is reachable from the initial state yet its display
`"Error5"` is neither a valid numeric literal nor the literal
`"Error"`. -/
theorem reachable_display_not_numeric :
    Reachable (reducer (runActions [.digit "6", .operator .div, .digit "0", .equals] initialState)
      (.digit "5")) ∧
    (reducer (runActions [.digit "6", .operator .div, .digit "0", .equals] initialState)
      (.digit "5")).display = "Error5" ∧
    specNumericLiteral "Error5" = false ∧
    "Error5" ≠ "Error" := by
  refine ⟨Reachable.step _ (reachable_runActions _ Reachable.init), by decide, by decide, by decide⟩

/-- C3: from a state with firstOperand `a` and pending operator `op`
set and `waitingForSecond = false`, `Operator(newOp)` computes
`calculate(a, parseDisplay display, op)`, pushes the history entry
`"<a> <op> <display> ="` (operands rendered through `formatResult`)
with the formatted result, stores the result as firstOperand, installs
`newOp`, and sets the awaiting flag; from a state that is awaiting with
an operator already pending, only the pending operator is replaced; and
`5, +, 3, -, 2, =` leaves history containing `"5 + 3 =" → "8"` with
final display `"6"`. -/
theorem operator_compute_and_replace :
    (∀ (d : String) (a : JSNum) (op : Operator) (m : Option JSNum)
        (hh : List HistoryItem) (newOp : Operator),
        reducer ⟨d, some a, some op, false, m, hh⟩ (.operator newOp) =
          ⟨formatResult (calculate a (.fin (parseDisplay d)) op),
            some (calculate a (.fin (parseDisplay d)) op),
            some newOp, true, m,
            pushHistory hh (exprOf a op (.fin (parseDisplay d)))
              (formatResult (calculate a (.fin (parseDisplay d)) op)) 25⟩) ∧
    (∀ (d : String) (fo : Option JSNum) (op : Operator) (m : Option JSNum)
        (hh : List HistoryItem) (newOp : Operator),
        reducer ⟨d, fo, some op, true, m, hh⟩ (.operator newOp) =
          ⟨d, fo, some newOp, true, m, hh⟩) ∧
    ({ expression := "5 + 3 =", result := "8" } : HistoryItem) ∈
      (runActions [.digit "5", .operator .add, .digit "3", .operator .sub, .digit "2", .equals]
        initialState).history ∧
    (runActions [.digit "5", .operator .add, .digit "3", .operator .sub, .digit "2", .equals]
        initialState).display = "6" := by
  refine ⟨?_, ?_, by decide, by decide⟩
  · intro d a op m hh newOp
    rfl
  · intro d fo op m hh newOp
    rfl

/-- C5: `Percent` sets the display to the formatted value of
`(firstOperand * (display || 0)) / 100` when firstOperand and operator
are set and the awaiting flag is clear, and to the formatted value of
`(display || 0) / 100` in every other state (firstOperand absent,
operator absent, or awaiting); over the rationals the mid-operation
value is exactly `firstOperand × (display / 100)`. -/
theorem percent_display_semantics :
    (∀ (d : String) (a : JSNum) (op : Operator) (m : Option JSNum) (hh : List HistoryItem),
        reducer ⟨d, some a, some op, false, m, hh⟩ .percent =
          ⟨formatResult ((a.mul (orZero (parseFloat d))).div (.fin ⟨100, 1⟩)),
            some a, some op, false, m, hh⟩) ∧
    (∀ (d : String) (op : Option Operator) (w : Bool) (m : Option JSNum)
        (hh : List HistoryItem),
        reducer ⟨d, none, op, w, m, hh⟩ .percent =
          ⟨formatResult ((orZero (parseFloat d)).div (.fin ⟨100, 1⟩)), none, op, w, m, hh⟩) ∧
    (∀ (d : String) (fo : Option JSNum) (w : Bool) (m : Option JSNum)
        (hh : List HistoryItem),
        reducer ⟨d, fo, none, w, m, hh⟩ .percent =
          ⟨formatResult ((orZero (parseFloat d)).div (.fin ⟨100, 1⟩)), fo, none, w, m, hh⟩) ∧
    (∀ (d : String) (fo : Option JSNum) (op : Option Operator) (m : Option JSNum)
        (hh : List HistoryItem),
        reducer ⟨d, fo, op, true, m, hh⟩ .percent =
          ⟨formatResult ((orZero (parseFloat d)).div (.fin ⟨100, 1⟩)), fo, op, true, m, hh⟩) ∧
    (∀ a c : Frac, ((a.mul c).div ⟨100, 1⟩).toRat = a.toRat * (c.toRat / 100)) := by
  refine ⟨?_, ?_, ?_, ?_, ?_⟩
  · intro d a op m hh
    rfl
  · intro d op w m hh
    rcases op with _ | o <;> rcases w <;> rfl
  · intro d fo w m hh
    rcases fo with _ | a <;> rcases w <;> rfl
  · intro d fo op m hh
    rcases fo with _ | a <;> rcases op with _ | o <;> rfl
  · intro a c
    rw [Frac.toRat_div, Frac.toRat_mul]
    have h100 : (Frac.toRat ⟨100, 1⟩) = (100 : ℚ) := by
      simp [Frac.toRat]
    rw [h100, mul_div_assoc]

/-- C8: `MemoryAdd` sets memory to `(memory or 0) + parseDisplay
display` (an exact rational addition over positive-denominator
fractions), `MemoryRecall` on a present memory sets the display to the
formatted memory, and accumulated adds round-trip through recall:
`Clear, 4, M+, Clear, 1, M+, MR` yields display `"5"`. -/
theorem memory_add_recall :
    (∀ (d : String) (fo : Option JSNum) (op : Option Operator) (w : Bool)
        (mq : JSNum) (hh : List HistoryItem),
        reducer ⟨d, fo, op, w, some mq, hh⟩ .memoryAdd =
          ⟨d, fo, op, w, some (mq.add (.fin (parseDisplay d))), hh⟩) ∧
    (∀ (d : String) (fo : Option JSNum) (op : Option Operator) (w : Bool)
        (hh : List HistoryItem),
        reducer ⟨d, fo, op, w, none, hh⟩ .memoryAdd =
          ⟨d, fo, op, w, some ((JSNum.fin Frac.zero).add (.fin (parseDisplay d))), hh⟩) ∧
    (∀ (d : String) (fo : Option JSNum) (op : Option Operator) (w : Bool)
        (mq : JSNum) (hh : List HistoryItem),
        reducer ⟨d, fo, op, w, some mq, hh⟩ .memoryRecall =
          ⟨formatResult mq, fo, op, false, some mq, hh⟩) ∧
    (∀ a b : Frac, 0 < a.den → 0 < b.den → (a.add b).toRat = a.toRat + b.toRat) ∧
    (runActions [.clear, .digit "4", .memoryAdd, .clear, .digit "1", .memoryAdd, .memoryRecall]
        initialState).display = "5" := by
  refine ⟨?_, ?_, ?_, Frac.toRat_add, by decide⟩
  · intro d fo op w mq hh
    rfl
  · intro d fo op w hh
    rfl
  · intro d fo op w mq hh
    rfl

/-- Witness for C8's quantified addition law at concrete fractions:
`4 + 1 = 5` at the rational level. -/
theorem memory_add_recall_witness :
    (Frac.add ⟨4, 1⟩ ⟨1, 1⟩).toRat = (Frac.toRat ⟨4, 1⟩) + (Frac.toRat ⟨1, 1⟩) :=
  memory_add_recall.2.2.2.1 ⟨4, 1⟩ ⟨1, 1⟩ (by decide) (by decide)

theorem history_length_step (s : State) (a : Action) (hs : s.history.length ≤ 25) :
    (reducer s a).history.length ≤ 25 := by
  obtain ⟨d, fo, op, w, m, hh⟩ := s
  cases a <;> simp only [reducer] <;> (repeat' split) <;>
    first
      | exact hs
      | (simp only [pushHistory, List.length_take, List.length_cons]; omega)
      | simp

theorem fo_op_step (s : State) (a : Action)
    (hs : s.firstOperand.isSome = true → s.operator.isSome = true) :
    (reducer s a).firstOperand.isSome = true → (reducer s a).operator.isSome = true := by
  obtain ⟨d, fo, op, w, m, hh⟩ := s
  cases a <;> simp only [reducer] <;> (repeat' split) <;>
    first
      | exact hs
      | exact fun h => h

/-- C6: every history push prepends the new entry and truncates to the
25 most recent entries, so every reachable state has history length at
most 25, and pushing onto a full history of 25 evicts exactly the
oldest entry. -/
theorem history_capped :
    (∀ (h : List HistoryItem) (e r : String),
        (pushHistory h e r 25).length = min 25 (h.length + 1)) ∧
    (∀ (h : List HistoryItem) (e r : String), h.length < 25 →
        pushHistory h e r 25 = { expression := e, result := r } :: h) ∧
    (∀ (h : List HistoryItem) (e r : String), h.length = 25 →
        pushHistory h e r 25 = { expression := e, result := r } :: h.dropLast) ∧
    (∀ s : State, Reachable s → s.history.length ≤ 25) := by
  refine ⟨?_, ?_, ?_, ?_⟩
  · intro h e r
    simp only [pushHistory, List.length_take, List.length_cons]
  · intro h e r hlt
    simp only [pushHistory]
    apply List.take_of_length_le
    simp only [List.length_cons]
    omega
  · intro h e r hlen
    simp only [pushHistory]
    have h25 : (25 : ℕ) = 24 + 1 := rfl
    rw [h25, List.take_succ_cons, List.dropLast_eq_take, hlen]
  · intro s h
    induction h with
    | init => simp [initialState]
    | step a hr ih => exact history_length_step _ a ih

/-- Witness for C6 at concrete histories: a push on an empty history
prepends, a push on a full history of 25 drops the oldest entry, and
the initial state (which is reachable) satisfies the bound. -/
theorem history_capped_witness :
    pushHistory [] "a" "b" 25 = [{ expression := "a", result := "b" }] ∧
    pushHistory (List.replicate 25 { expression := "x", result := "y" }) "e" "r" 25 =
      { expression := "e", result := "r" } ::
        (List.replicate 25 ({ expression := "x", result := "y" } : HistoryItem)).dropLast ∧
    initialState.history.length ≤ 25 :=
  ⟨history_capped.2.1 [] "a" "b" (by decide),
   history_capped.2.2.1 _ "e" "r" (by simp),
   history_capped.2.2.2 initialState Reachable.init⟩

/-- C9: in every reachable state, firstOperand being set implies the
operator is set (equivalently: no pending operator means no stored
first operand), so the fallback branch of the Operator case
(firstOperand set, no pending operator) can never fire. -/
theorem firstOperand_implies_operator :
    ∀ s : State, Reachable s →
      (s.firstOperand.isSome = true → s.operator.isSome = true) ∧
      (s.operator = none → s.firstOperand = none) := by
  intro s h
  have key : s.firstOperand.isSome = true → s.operator.isSome = true := by
    induction h with
    | init => exact fun h => h
    | step a hr ih => exact fo_op_step _ a ih
  refine ⟨key, ?_⟩
  intro hop
  cases hfo : s.firstOperand with
  | none => rfl
  | some a =>
      exfalso
      have h2 := key (by rw [hfo]; rfl)
      rw [hop] at h2
      exact Bool.noConfusion h2

/-- Witness for C9: the reachable state after `Digit 5, Operator +` has
its firstOperand set, so the theorem yields that its operator is set. -/
theorem firstOperand_implies_operator_witness :
    (runActions [.digit "5", .operator .add] initialState).firstOperand.isSome = true ∧
    (runActions [.digit "5", .operator .add] initialState).operator.isSome = true :=
  ⟨by decide,
   (firstOperand_implies_operator _ (reachable_runActions _ Reachable.init)).1 (by decide)⟩

end Calculator